import Mathlib

/-!
Verification of the adaptive chunked-fetch-and-merge pipeline
(`attached_assets/ga4_backdate_chunked.py`).

Shallow embedding conventions:
  * Calendar dates handled by `datetime.date` / `timedelta(days=...)`
    arithmetic are modelled as `Int` day numbers (the script only ever
    adds whole days and compares dates, which is exactly `Int` addition
    and ordering).
  * Dates parsed from `YYYYMMDD` strings (`datetime.strptime(raw, "%Y%m%d")`)
    are modelled as validated `(year, month, day)` triples (`Ymd`).
  * Python exceptions are modelled as values: the googleapiclient
    `HttpError` becomes a structure carrying the stringified message
    (the code only inspects `str(ex)`), and per-row normalization
    failures (KeyError / IndexError / ValueError) become `Option`
    results.
  * A Python generator is modelled by the eager list of the values it
    yields before terminating or raising, paired with the optional
    terminal exception; this is exactly what the consuming `for` loop
    observes.
  * Loops whose counters live in `Int` are written with an explicit
    `Nat` fuel that is a proved upper bound on the iteration count, so
    every definition stays executable by kernel reduction.
-/

/-- One `(year, month, day)` calendar date as produced by
`datetime.strptime(raw_date, "%Y%m%d").date()`. -/
abbrev Ymd : Type := Nat × Nat × Nat

/-! ## DateRangeChunker: `iter_chunks` (lines 31-37) -/

/-- Fuel-indexed body of the `while cur <= end_d` loop of `iter_chunks`.
The fuel is an upper bound on the number of iterations; `iter_chunks`
instantiates it with `(end_d + 1 - start_d).toNat`, which is sufficient
because each iteration advances `cur` by at least one day whenever
`span_days >= 1` (the function's documented precondition). -/
def iterChunksAux (end_d : Int) (span_days : Nat) : Nat → Int → List (Int × Int)
  | 0, _ => []
  | fuel + 1, cur =>
    if cur ≤ end_d then
      let chunk_end := min end_d (cur + ((span_days - 1 : Nat) : Int))
      (cur, chunk_end) :: iterChunksAux end_d span_days fuel (chunk_end + 1)
    else []

/-- `iter_chunks(start_d, end_d, span_days)`: the list of inclusive
`(chunk_start, chunk_end)` date ranges yielded by the generator. -/
def iter_chunks (start_d end_d : Int) (span_days : Nat) : List (Int × Int) :=
  iterChunksAux end_d span_days (end_d + 1 - start_d).toNat start_d

/-! ## AdaptiveFetchSession: `fetch_chunked` (lines 39-68) -/

/-- The stringified `googleapiclient.errors.HttpError` (`msg = str(ex)`);
the script inspects only this string. -/
structure HttpError where
  msg : String
deriving DecidableEq

/-- `needle` is an initial segment of `hay` (character lists). -/
def leadsWith : List Char → List Char → Bool
  | [], _ => true
  | _ :: _, [] => false
  | c :: cs, h :: hs => c == h && leadsWith cs hs

/-- `needle` occurs as a contiguous substring of `hay`
(Python's `needle in hay` on strings). -/
def hasSub : List Char → List Char → Bool
  | [], needle => needle.isEmpty
  | h :: t, needle => leadsWith needle (h :: t) || hasSub t needle

/-- Line 62: `"exceeds limit" in msg or "too_large" in msg`. -/
def isSizeMsg (m : String) : Bool :=
  hasSub m.data "exceeds limit".data || hasSub m.data "too_large".data

/-- Line 65: `span = max(31, span // 2)`. -/
def nextSpan (span : Nat) : Nat := max 31 (span / 2)

/-- One pass of the `for s, e in iter_chunks(...)` loop (lines 43-58):
issue one request per chunk, collecting the responses yielded so far;
stop at the first raised `HttpError`.  Returns the yielded responses
(which the caller has already consumed) and the terminal exception,
if any.  The request itself (`runReport(...).execute()`) is the
external collaborator `api`, a function of the chunk bounds. -/
def attempt {α : Type} (api : Int → Int → Except HttpError α) :
    List (Int × Int) → List α × Option HttpError
  | [] => ([], none)
  | (s, e) :: rest =>
    match api s e with
    | .error ex => ([], some ex)
    | .ok resp =>
      let r := attempt api rest
      (resp :: r.1, r.2)

/-- Fuel-indexed body of the `while True` retry loop of `fetch_chunked`
(lines 41-68).  The fuel bounds the number of retries; it is
instantiated with the current span, which suffices because every retry
strictly decreases the span (`nextSpan span < span` whenever the code
retries, i.e. whenever `span > 31`).  Returns the full list of
responses yielded across all attempts — successful chunks of a failed
attempt included, since the generator has already yielded them to the
caller — together with the exception finally raised, if any. -/
def fetchChunkedAux {α : Type} (api : Int → Int → Except HttpError α)
    (start_d end_d : Int) : Nat → Nat → List α × Option HttpError
  | fuel, span =>
    match attempt api (iter_chunks start_d end_d span) with
    | (ys, none) => (ys, none)
    | (ys, some ex) =>
      if isSizeMsg ex.msg then
        if span ≤ 31 then (ys, some ex)
        else
          match fuel with
          | 0 => (ys, some ex)
          | fuel' + 1 =>
            let r := fetchChunkedAux api start_d end_d fuel' (nextSpan span)
            (ys ++ r.1, r.2)
      else (ys, some ex)

/-- `fetch_chunked(analytics_data, property_id, start_d, end_d, base_span)`:
the sequence of raw responses the generator yields to the consuming
`for resp in fetch_chunked(...)` loop, and the exception it finally
raises, if any. -/
def fetch_chunked {α : Type} (api : Int → Int → Except HttpError α)
    (start_d end_d : Int) (base_span : Nat) : List α × Option HttpError :=
  fetchChunkedAux api start_d end_d base_span base_span

/-! ## RowAccumulator: response normalization (lines 92-108) -/

/-- One entry of a response's `dimensionValues` list.  `value` is
`none` when the JSON field is `null` or absent (both are falsy in
Python, like the empty string). -/
structure DimensionValue where
  value : Option String
deriving DecidableEq

/-- One entry of a response's `metricValues` list. -/
structure MetricValue where
  value : Option String
deriving DecidableEq

/-- One element of `resp.get("rows", [])`. -/
structure RawReportRow where
  dimensionValues : List DimensionValue
  metricValues : List MetricValue
deriving DecidableEq

/-- Python's `v or dflt` on an optional string: `v` unless it is
falsy (`None` or `""`). -/
def pyOr (v : Option String) (dflt : String) : String :=
  match v with
  | some s => if s = "" then dflt else s
  | none => dflt

/-- Digit characters to the `Nat` they denote. -/
def digitsToNat (cs : List Char) : Nat :=
  cs.foldl (fun a c => a * 10 + (c.toNat - 48)) 0

/-- How many days the given month of the given year has
(proleptic Gregorian, as Python's `datetime.date` validates). -/
def daysInMonth (y m : Nat) : Nat :=
  if m = 2 then
    if (y % 4 = 0 ∧ y % 100 ≠ 0) ∨ y % 400 = 0 then 29 else 28
  else if m = 4 ∨ m = 6 ∨ m = 9 ∨ m = 11 then 30 else 31

/-- `datetime.strptime(raw_date, "%Y%m%d").date()` (line 95): parses an
eight-digit `YYYYMMDD` string into a valid calendar date, failing
(raising `ValueError`) otherwise. -/
def parseYMD8 (str : String) : Option Ymd :=
  let cs := str.data
  if cs.length = 8 ∧ cs.all Char.isDigit then
    let y := digitsToNat (cs.take 4)
    let m := digitsToNat ((cs.drop 4).take 2)
    let d := digitsToNat (cs.drop 6)
    if 1 ≤ m ∧ m ≤ 12 ∧ 1 ≤ d ∧ d ≤ daysInMonth y m ∧ 1 ≤ y ∧ y ≤ 9999 then
      some (y, m, d)
    else none
  else none

/-- Python's `int(...)` on the metric string (line 96): an optional
sign followed by at least one digit (whitespace tolerance of `int` is
irrelevant here and omitted); `none` models the raised `ValueError`
(also the `TypeError` on `int(None)`). -/
def parseIntPy (v : Option String) : Option Int :=
  match v with
  | none => none
  | some s =>
    match s.data with
    | [] => none
    | '-' :: rest =>
      if rest ≠ [] ∧ rest.all Char.isDigit then some (-(digitsToNat rest : Int)) else none
    | '+' :: rest =>
      if rest ≠ [] ∧ rest.all Char.isDigit then some (digitsToNat rest : Int) else none
    | cs =>
      if cs.all Char.isDigit then some (digitsToNat cs : Int) else none

/-- The normalized `(date, channel, sessions)` triple appended for one
raw response row. -/
abbrev NormOut : Type := Ymd × String × Int

/-- Lines 93-96: normalization of one raw response row.  `none` models
any exception raised there (missing list index or dict key, unparsable
date, unparsable metric), which aborts the entity inside the
`try`/`except` block; otherwise exactly one normalized row is
produced, with the falsy dimension value replaced by the
`"(unassigned)"` sentinel. -/
def normalizeRow (rr : RawReportRow) : Option NormOut :=
  match rr.dimensionValues[0]?, rr.dimensionValues[1]?, rr.metricValues[0]? with
  | some d0, some d1, some m0 =>
    match d0.value.bind parseYMD8, parseIntPy m0.value with
    | some date_dt, some sessions_val =>
      some (date_dt, pyOr d1.value "(unassigned)", sessions_val)
    | _, _ => none
  | _, _, _ => none

/-! ## The per-entity module-level loop (lines 78-111) -/

/-- One row of the filtered `refined` property table. -/
structure EntityRow where
  property_id : String
  property_name : String
  account_id : String
  account_name : String
  user : String
  token_file : String
deriving DecidableEq

/-- One dict appended to the module-level `rows` list (lines 98-108);
also one row of the staged dataframe. -/
structure StageRow where
  property_id : String
  property_name : String
  account_id : String
  account_name : String
  user : String
  token_file : String
  date : Ymd
  sessionDefaultChannelGroup : String
  sessions : Int
deriving DecidableEq

/-- The external collaborators of the per-entity loop: `os.path.exists`
on the token file, success of credential loading / service building
(lines 88-89; any exception there is caught by the entity-level
`except`), the report API for one chunk request keyed by property id,
and the module-level fetch window `[start_date, end_date]`. -/
structure Env where
  tokenExists : String → Bool
  credsOk : String → Bool
  api : String → Int → Int → Except HttpError (List RawReportRow)
  start_d : Int
  end_d : Int

/-- The inner `for rr in resp.get("rows", [])` loop over one response:
rows normalized before the first raising row, and whether a row raised. -/
def normList : List RawReportRow → List NormOut × Bool
  | [] => ([], false)
  | rr :: rest =>
    match normalizeRow rr with
    | none => ([], true)
    | some o =>
      let r := normList rest
      (o :: r.1, r.2)

/-- The `for resp in fetch_chunked(...)` loop body over the yielded
responses: accumulated normalized rows and whether normalization
raised (which abandons the generator, so later responses are not
consumed). -/
def consumeResponses : List (List RawReportRow) → List NormOut × Bool
  | [] => ([], false)
  | resp :: rest =>
    let r := normList resp
    if r.2 then (r.1, true)
    else
      let r2 := consumeResponses rest
      (r.1 ++ r2.1, r2.2)

/-- Lines 98-108: the dict appended to `rows` for one normalized row. -/
def mkStageRow (r : EntityRow) (o : NormOut) : StageRow :=
  { property_id := r.property_id
    property_name := r.property_name
    account_id := r.account_id
    account_name := r.account_name
    user := r.user
    token_file := r.token_file
    date := o.1
    sessionDefaultChannelGroup := o.2.1
    sessions := o.2.2 }

/-- Lines 80-111: processing of one entity row — skip when the token
file is falsy or absent (with a warning print), otherwise run the
chunked fetch and normalization inside `try`, catching any exception
at this boundary (with an error print).  Returns the stage rows this
entity appended to the module-level `rows` list (rows appended before
an exception stay there) and the diagnostic prints. -/
def processEntity (env : Env) (r : EntityRow) : List StageRow × List String :=
  if r.token_file = "" ∨ env.tokenExists r.token_file = false then
    ([], ["Token missing. Skip " ++ r.property_id])
  else if env.credsOk r.token_file = false then
    ([], ["Error " ++ r.property_id])
  else
    let fr := fetch_chunked (env.api r.property_id) env.start_d env.end_d 210
    let cr := consumeResponses fr.1
    let outRows := cr.1.map (mkStageRow r)
    if cr.2 then (outRows, ["Error " ++ r.property_id])
    else
      match fr.2 with
      | some _ => (outRows, ["Error " ++ r.property_id])
      | none => (outRows, [])

/-- Lines 78-111: the whole `for _, r in refined.iterrows()` loop,
concatenating every entity's appended rows and prints. -/
def processEntities (env : Env) : List EntityRow → List StageRow × List String
  | [] => ([], [])
  | r :: rest =>
    let a := processEntity env r
    let b := processEntities env rest
    (a.1 ++ b.1, a.2 ++ b.2)

/-! ## `df.sort_values` (line 119) -/

/-- Kernel-reducible lexicographic strict order on character lists. -/
def charsLt : List Char → List Char → Bool
  | [], [] => false
  | [], _ :: _ => true
  | _ :: _, [] => false
  | a :: as, b :: bs => a.toNat < b.toNat || (a == b && charsLt as bs)

/-- Lexicographic strict order on `(year, month, day)` triples. -/
def ymdLt (a b : Ymd) : Bool :=
  a.1 < b.1 || (a.1 = b.1 && (a.2.1 < b.2.1 || (a.2.1 = b.2.1 && a.2.2 < b.2.2)))

/-- The `["property_id", "date", "sessionDefaultChannelGroup"]`
ascending sort key order used by `df.sort_values`. -/
def rowLe (a b : StageRow) : Bool :=
  if charsLt a.property_id.data b.property_id.data then true
  else if charsLt b.property_id.data a.property_id.data then false
  else if ymdLt a.date b.date then true
  else if ymdLt b.date a.date then false
  else !(charsLt b.sessionDefaultChannelGroup.data a.sessionDefaultChannelGroup.data)

/-- Insertion into a sorted list (for the model of `sort_values`). -/
def insSorted (x : StageRow) : List StageRow → List StageRow
  | [] => [x]
  | y :: ys => if rowLe x y then x :: y :: ys else y :: insSorted x ys

/-- `df.sort_values([...])` (line 119), modelled as a comparison sort:
reorders the accumulated rows by the three-column key without
dropping, collapsing or altering any row. -/
def sortRows : List StageRow → List StageRow
  | [] => []
  | x :: xs => insSorted x (sortRows xs)

/-- The batch handed to the sink: the module-level `rows` list built
by the per-entity loop, sorted (lines 113-119) and loaded wholesale
into the stage table with `WRITE_TRUNCATE` (lines 128-130). -/
def stagedBatch (env : Env) (es : List EntityRow) : List StageRow :=
  sortRows (processEntities env es).1

/-! ## MergeUpsertSink: `merge_sql` (lines 132-153) -/

/-- One row of the persistent target table
`argus.ga4_sessions_by_channel`: the staged columns plus the
`_ingested_at` timestamp. -/
structure TargetRow where
  property_id : String
  property_name : String
  account_id : String
  account_name : String
  user : String
  token_file : String
  date : Ymd
  sessionDefaultChannelGroup : String
  sessions : Int
  ingested_at : Nat
deriving DecidableEq

/-- The staged columns of a target row (everything except the
ingestion timestamp). -/
def TargetRow.toStage (t : TargetRow) : StageRow :=
  { property_id := t.property_id
    property_name := t.property_name
    account_id := t.account_id
    account_name := t.account_name
    user := t.user
    token_file := t.token_file
    date := t.date
    sessionDefaultChannelGroup := t.sessionDefaultChannelGroup
    sessions := t.sessions }

/-- The `MERGE ... ON` composite key of a staged row:
`(property_id, date, sessionDefaultChannelGroup)`. -/
def rowKey (s : StageRow) : String × Ymd × String :=
  (s.property_id, s.date, s.sessionDefaultChannelGroup)

/-- The composite key of a target row. -/
def tKey (t : TargetRow) : String × Ymd × String :=
  (t.property_id, t.date, t.sessionDefaultChannelGroup)

/-- `WHEN MATCHED THEN UPDATE SET ...` (lines 138-145) applied to one
target row: if some staged row matches its key, overwrite every
non-key column and stamp the merge time; otherwise leave the row
untouched. -/
def mergeStep (S : List StageRow) (now : Nat) (t : TargetRow) : TargetRow :=
  match S.find? (fun s => decide (rowKey s = tKey t)) with
  | some s =>
    { t with
      sessions := s.sessions
      property_name := s.property_name
      account_id := s.account_id
      account_name := s.account_name
      user := s.user
      token_file := s.token_file
      ingested_at := now }
  | none => t

/-- `WHEN NOT MATCHED THEN INSERT ...` (lines 146-151) for one staged
row: the inserted target row with a fresh ingestion timestamp. -/
def insertTarget (now : Nat) (s : StageRow) : TargetRow :=
  { property_id := s.property_id
    property_name := s.property_name
    account_id := s.account_id
    account_name := s.account_name
    user := s.user
    token_file := s.token_file
    date := s.date
    sessionDefaultChannelGroup := s.sessionDefaultChannelGroup
    sessions := s.sessions
    ingested_at := now }

/-- The whole `MERGE` statement: every target row is updated in place
when its key appears in the staged batch, and every staged row whose
key matches no target row is inserted with the fresh timestamp `now`
(`CURRENT_TIMESTAMP()`).  No row is ever deleted. -/
def merge (T : List TargetRow) (S : List StageRow) (now : Nat) : List TargetRow :=
  T.map (mergeStep S now) ++
    (S.filter (fun s => !(T.any (fun t => decide (tKey t = rowKey s))))).map
      (insertTarget now)

/-! ## Concrete fixtures used to instantiate the theorems -/

/-- An external report source that always fails with a non-size error
(e.g. an auth/quota failure). -/
def apiQuota : Int → Int → Except HttpError Unit :=
  fun _ _ => Except.error ⟨"quota denied for project"⟩

/-- A size-limit error as stringified from the report API. -/
def exSize : HttpError := ⟨"Response size exceeds limit."⟩

/-- A report source for which any request starting at day 210 or later
and spanning more than 60 days is too large, and every other request
succeeds; the response is modelled as the requested range itself. -/
def apiHeavy : Int → Int → Except HttpError (Int × Int) :=
  fun s e => if 210 ≤ s ∧ 61 ≤ e - s + 1 then Except.error exSize else Except.ok (s, e)

/-- A raw response row for 2024-01-01, channel "Direct", 5 sessions. -/
def rawDirect5 : RawReportRow :=
  ⟨[⟨some "20240101"⟩, ⟨some "Direct"⟩], [⟨some "5"⟩]⟩

/-- A report source with the same size-failure shape as `apiHeavy`
that reports the `rawDirect5` row for every successful request whose
range starts at day 0, and no rows otherwise. -/
def apiDup : String → Int → Int → Except HttpError (List RawReportRow) :=
  fun _ s e =>
    if 210 ≤ s ∧ 61 ≤ e - s + 1 then Except.error exSize
    else Except.ok (if s = 0 then [rawDirect5] else [])

/-- Environment for the duplicate-key run: token present, credentials
load, window days 0..299, report source `apiDup`. -/
def envDup : Env :=
  ⟨fun _ => true, fun _ => true, apiDup, 0, 299⟩

/-- The heavy property row being backfilled. -/
def entHeavy : EntityRow :=
  ⟨"410236109", "Heavy Site", "acc", "accname", "user1", "token.json"⟩

/-- Environment whose token file never exists on disk. -/
def envNoTok : Env :=
  ⟨fun _ => false, fun _ => true, fun _ _ _ => Except.ok [], 0, 9⟩

/-- A staged row for the composite key `(P1, 2024-01-01, "Direct")`
carrying the given session count. -/
def p1Direct (n : Int) : StageRow :=
  ⟨"P1", "Prop One", "A1", "Acct One", "u1", "tok1", (2024, 1, 1), "Direct", n⟩

/-! ## Chunker lemmas -/

theorem iterChunksAux_nil (e : Int) (sp f : Nat) (cur : Int) (h : e < cur) :
    iterChunksAux e sp f cur = [] := by
  cases f with
  | zero => rfl
  | succ f => simp [iterChunksAux, not_le.mpr h]

theorem iterChunksAux_fuel (e : Int) (sp : Nat) (hsp : 1 ≤ sp) :
    ∀ (f1 : Nat) (cur : Int) (f2 : Nat),
      (e + 1 - cur).toNat ≤ f1 → (e + 1 - cur).toNat ≤ f2 →
      iterChunksAux e sp f1 cur = iterChunksAux e sp f2 cur := by
  intro f1
  induction f1 with
  | zero =>
    intro cur f2 h1 _
    have hlt : e < cur := by omega
    rw [iterChunksAux_nil e sp 0 cur hlt, iterChunksAux_nil e sp f2 cur hlt]
  | succ f1 ih =>
    intro cur f2 h1 h2
    rcases lt_or_le e cur with hlt | hle
    · rw [iterChunksAux_nil e sp _ cur hlt, iterChunksAux_nil e sp f2 cur hlt]
    · have hm1 : cur ≤ min e (cur + ((sp - 1 : Nat) : Int)) := by
        apply le_min hle; omega
      have hm2 : min e (cur + ((sp - 1 : Nat) : Int)) ≤ e := min_le_left _ _
      obtain ⟨f2', rfl⟩ : ∃ f2', f2 = f2' + 1 := ⟨f2 - 1, by omega⟩
      simp only [iterChunksAux, if_pos hle]
      exact congrArg _ (ih _ f2' (by omega) (by omega))

theorem iter_chunks_nil (s e : Int) (sp : Nat) (h : e < s) :
    iter_chunks s e sp = [] := by
  unfold iter_chunks
  exact iterChunksAux_nil e sp _ s h

theorem iter_chunks_cons (s e : Int) (sp : Nat) (hsp : 1 ≤ sp) (hse : s ≤ e) :
    iter_chunks s e sp =
      (s, min e (s + ((sp - 1 : Nat) : Int))) ::
        iter_chunks (min e (s + ((sp - 1 : Nat) : Int)) + 1) e sp := by
  have hm1 : s ≤ min e (s + ((sp - 1 : Nat) : Int)) := by
    apply le_min hse; omega
  have hm2 : min e (s + ((sp - 1 : Nat) : Int)) ≤ e := min_le_left _ _
  unfold iter_chunks
  obtain ⟨n, hn⟩ : ∃ n, (e + 1 - s).toNat = n + 1 := ⟨(e + 1 - s).toNat - 1, by omega⟩
  rw [hn]
  simp only [iterChunksAux, if_pos hse]
  refine congrArg _ (iterChunksAux_fuel e sp hsp n _ _ (by omega) (by omega))

theorem iter_chunks_mem (e : Int) (sp : Nat) (hsp : 1 ≤ sp) :
    ∀ (n : Nat) (s : Int), (e + 1 - s).toNat ≤ n →
      ∀ p ∈ iter_chunks s e sp, s ≤ p.1 ∧ p.1 ≤ p.2 ∧ p.2 ≤ e := by
  intro n
  induction n with
  | zero =>
    intro s hs p hp
    rw [iter_chunks_nil s e sp (by omega)] at hp
    cases hp
  | succ n ih =>
    intro s hs p hp
    rcases lt_or_le e s with hlt | hle
    · rw [iter_chunks_nil s e sp hlt] at hp
      cases hp
    · have hm1 : s ≤ min e (s + ((sp - 1 : Nat) : Int)) := by
        apply le_min hle; omega
      have hm2 : min e (s + ((sp - 1 : Nat) : Int)) ≤ e := min_le_left _ _
      rw [iter_chunks_cons s e sp hsp hle] at hp
      rcases List.mem_cons.mp hp with rfl | hp'
      · exact ⟨le_refl _, hm1, hm2⟩
      · have := ih _ (by omega) p hp'
        omega

theorem iter_chunks_chain (e : Int) (sp : Nat) (hsp : 1 ≤ sp) :
    ∀ (n : Nat) (s : Int), (e + 1 - s).toNat ≤ n →
      List.Chain' (fun p q : Int × Int => p.2 + 1 = q.1) (iter_chunks s e sp) := by
  intro n
  induction n with
  | zero =>
    intro s hs
    rw [iter_chunks_nil s e sp (by omega)]
    exact List.chain'_nil
  | succ n ih =>
    intro s hs
    rcases lt_or_le e s with hlt | hle
    · rw [iter_chunks_nil s e sp hlt]
      exact List.chain'_nil
    · have hm1 : s ≤ min e (s + ((sp - 1 : Nat) : Int)) := by
        apply le_min hle; omega
      have hm2 : min e (s + ((sp - 1 : Nat) : Int)) ≤ e := min_le_left _ _
      rw [iter_chunks_cons s e sp hsp hle]
      rw [List.chain'_cons']
      constructor
      · intro q hq
        rcases lt_or_le e (min e (s + ((sp - 1 : Nat) : Int)) + 1) with h2 | h2
        · rw [iter_chunks_nil _ e sp h2] at hq
          simp at hq
        · rw [iter_chunks_cons _ e sp hsp h2] at hq
          simp only [List.head?_cons, Option.mem_some_iff] at hq
          subst hq
          rfl
      · exact ih _ (by omega)

theorem iter_chunks_pairwise (e : Int) (sp : Nat) (hsp : 1 ≤ sp) :
    ∀ (n : Nat) (s : Int), (e + 1 - s).toNat ≤ n →
      List.Pairwise (fun p q : Int × Int => p.2 < q.1) (iter_chunks s e sp) := by
  intro n
  induction n with
  | zero =>
    intro s hs
    rw [iter_chunks_nil s e sp (by omega)]
    exact List.Pairwise.nil
  | succ n ih =>
    intro s hs
    rcases lt_or_le e s with hlt | hle
    · rw [iter_chunks_nil s e sp hlt]
      exact List.Pairwise.nil
    · have hm1 : s ≤ min e (s + ((sp - 1 : Nat) : Int)) := by
        apply le_min hle; omega
      have hm2 : min e (s + ((sp - 1 : Nat) : Int)) ≤ e := min_le_left _ _
      rw [iter_chunks_cons s e sp hsp hle]
      refine List.Pairwise.cons ?_ (ih _ (by omega))
      intro q hq
      have := iter_chunks_mem e sp hsp n _ (by omega) q hq
      simp only
      omega

theorem iter_chunks_cover (e : Int) (sp : Nat) (hsp : 1 ≤ sp) :
    ∀ (n : Nat) (s : Int), (e + 1 - s).toNat ≤ n → s ≤ e →
      ∀ d : Int, (∃ p ∈ iter_chunks s e sp, p.1 ≤ d ∧ d ≤ p.2) ↔ (s ≤ d ∧ d ≤ e) := by
  intro n
  induction n with
  | zero =>
    intro s hs hse
    omega
  | succ n ih =>
    intro s hs hse d
    have hm1 : s ≤ min e (s + ((sp - 1 : Nat) : Int)) := by
      apply le_min hse; omega
    have hm2 : min e (s + ((sp - 1 : Nat) : Int)) ≤ e := min_le_left _ _
    rw [iter_chunks_cons s e sp hsp hse]
    rcases eq_or_lt_of_le hm2 with heq | hlt
    · rw [heq, iter_chunks_nil _ e sp (by omega)]
      constructor
      · rintro ⟨p, hp, h1, h2⟩
        rcases List.mem_cons.mp hp with rfl | hp'
        · simp only at h1 h2
          omega
        · cases hp'
      · intro hd
        exact ⟨(s, e), List.mem_cons_self _ _, by simp only; omega⟩
    · have htail := ih (min e (s + ((sp - 1 : Nat) : Int)) + 1) (by omega) (by omega)
      constructor
      · rintro ⟨p, hp, h1, h2⟩
        rcases List.mem_cons.mp hp with rfl | hp'
        · simp only at h1 h2
          omega
        · have := (htail d).mp ⟨p, hp', h1, h2⟩
          omega
      · intro hd
        rcases le_or_lt d (min e (s + ((sp - 1 : Nat) : Int))) with hdm | hdm
        · exact ⟨_, List.mem_cons_self _ _, by simp only; omega⟩
        · obtain ⟨p, hp, h1, h2⟩ := (htail d).mpr (by omega)
          exact ⟨p, List.mem_cons_of_mem _ hp, h1, h2⟩

theorem iter_chunks_width_le (e : Int) (sp : Nat) (hsp : 1 ≤ sp) :
    ∀ (n : Nat) (s : Int), (e + 1 - s).toNat ≤ n →
      ∀ p ∈ iter_chunks s e sp, p.2 - p.1 + 1 ≤ (sp : Int) := by
  intro n
  induction n with
  | zero =>
    intro s hs p hp
    rw [iter_chunks_nil s e sp (by omega)] at hp
    cases hp
  | succ n ih =>
    intro s hs p hp
    rcases lt_or_le e s with hlt | hle
    · rw [iter_chunks_nil s e sp hlt] at hp
      cases hp
    · have hm1 : s ≤ min e (s + ((sp - 1 : Nat) : Int)) := by
        apply le_min hle; omega
      have hm3 : min e (s + ((sp - 1 : Nat) : Int)) ≤ s + ((sp - 1 : Nat) : Int) :=
        min_le_right _ _
      rw [iter_chunks_cons s e sp hsp hle] at hp
      rcases List.mem_cons.mp hp with rfl | hp'
      · simp only
        omega
      · exact ih _ (by omega) p hp'

theorem iter_chunks_width_eq (e : Int) (sp : Nat) (hsp : 1 ≤ sp) :
    ∀ (n : Nat) (s : Int), (e + 1 - s).toNat ≤ n →
      ∀ p ∈ (iter_chunks s e sp).dropLast, p.2 - p.1 + 1 = (sp : Int) := by
  intro n
  induction n with
  | zero =>
    intro s hs p hp
    rw [iter_chunks_nil s e sp (by omega)] at hp
    cases hp
  | succ n ih =>
    intro s hs p hp
    rcases lt_or_le e s with hlt | hle
    · rw [iter_chunks_nil s e sp hlt] at hp
      cases hp
    · have hm1 : s ≤ min e (s + ((sp - 1 : Nat) : Int)) := by
        apply le_min hle; omega
      have hm2 : min e (s + ((sp - 1 : Nat) : Int)) ≤ e := min_le_left _ _
      rw [iter_chunks_cons s e sp hsp hle] at hp
      rcases eq_or_lt_of_le hm2 with heq | hlt2
      · rw [heq, iter_chunks_nil _ e sp (by omega)] at hp
        simp at hp
      · have hmin : min e (s + ((sp - 1 : Nat) : Int)) = s + ((sp - 1 : Nat) : Int) := by
          rcases min_cases e (s + ((sp - 1 : Nat) : Int)) with ⟨h1, h2⟩ | ⟨h1, h2⟩ <;> omega
        rw [iter_chunks_cons _ e sp hsp (by omega)] at hp
        simp only [List.dropLast_cons₂] at hp
        rcases List.mem_cons.mp hp with rfl | hp'
        · simp only
          omega
        · have := ih (min e (s + ((sp - 1 : Nat) : Int)) + 1) (by omega) p
            (by rw [iter_chunks_cons _ e sp hsp (by omega)]; exact hp')
          exact this

/-- C1: for `start <= end` and `span_days >= 1` the chunker's ranges
are contiguous (each range's end plus one day is the next range's
start), non-overlapping, and cover exactly `[start, end]`; for
`start > end` the sequence is empty. -/
theorem C1_iter_chunks_partition (s e : Int) (sp : Nat) (hsp : 1 ≤ sp) :
    (e < s → iter_chunks s e sp = []) ∧
    (s ≤ e →
      List.Chain' (fun p q : Int × Int => p.2 + 1 = q.1) (iter_chunks s e sp) ∧
      List.Pairwise (fun p q : Int × Int => p.2 < q.1) (iter_chunks s e sp) ∧
      ∀ d : Int, (∃ p ∈ iter_chunks s e sp, p.1 ≤ d ∧ d ≤ p.2) ↔ (s ≤ d ∧ d ≤ e)) := by
  refine ⟨fun h => iter_chunks_nil s e sp h, fun hse => ⟨?_, ?_, ?_⟩⟩
  · exact iter_chunks_chain e sp hsp (e + 1 - s).toNat s (le_refl _)
  · exact iter_chunks_pairwise e sp hsp (e + 1 - s).toNat s (le_refl _)
  · exact iter_chunks_cover e sp hsp (e + 1 - s).toNat s (le_refl _) hse

/-- Witness for C1 at the spec's scenario: window `2024-01-01..2024-01-10`
(days 0..9) at span 210 — a single chunk `[(0, 9)]`. -/
theorem C1_iter_chunks_partition_witness :
    (1 ≤ 210 ∧ (0 : Int) ≤ 9 ∧ iter_chunks 0 9 210 = [(0, 9)]) ∧
    (((9 : Int) < 0 → iter_chunks 0 9 210 = []) ∧
      ((0 : Int) ≤ 9 →
        List.Chain' (fun p q : Int × Int => p.2 + 1 = q.1) (iter_chunks 0 9 210) ∧
        List.Pairwise (fun p q : Int × Int => p.2 < q.1) (iter_chunks 0 9 210) ∧
        ∀ d : Int, (∃ p ∈ iter_chunks 0 9 210, p.1 ≤ d ∧ d ≤ p.2) ↔ ((0 : Int) ≤ d ∧ d ≤ 9))) :=
  ⟨⟨by decide, by decide, by decide⟩, C1_iter_chunks_partition 0 9 210 (by decide)⟩

/-- C10: for `span_days >= 1` every yielded range spans at most
`span_days` days (inclusive width `end - start + 1`), and every range
except the last spans exactly `span_days` days. -/
theorem C10_iter_chunks_widths (s e : Int) (sp : Nat) (hsp : 1 ≤ sp) :
    (∀ p ∈ iter_chunks s e sp, p.2 - p.1 + 1 ≤ (sp : Int)) ∧
    (∀ p ∈ (iter_chunks s e sp).dropLast, p.2 - p.1 + 1 = (sp : Int)) :=
  ⟨iter_chunks_width_le e sp hsp (e + 1 - s).toNat s (le_refl _),
   iter_chunks_width_eq e sp hsp (e + 1 - s).toNat s (le_refl _)⟩

/-- Witness for C10: a 300-day window (days 0..299) at span 210 splits
into `[(0,209), (210,299)]`; widths 210 and 90. -/
theorem C10_iter_chunks_widths_witness :
    (1 ≤ 210 ∧ iter_chunks 0 299 210 = [(0, 209), (210, 299)]) ∧
    (∀ p ∈ iter_chunks (0 : Int) 299 210, p.2 - p.1 + 1 ≤ (210 : Int)) ∧
    (∀ p ∈ (iter_chunks (0 : Int) 299 210).dropLast, p.2 - p.1 + 1 = (210 : Int)) :=
  ⟨⟨by decide, by decide⟩, C10_iter_chunks_widths 0 299 210 (by decide)⟩

/-! ## Fetch-session lemmas -/

theorem nextSpan_ge (s : Nat) : 31 ≤ nextSpan s := by
  unfold nextSpan
  omega

theorem nextSpan_lt (s : Nat) (h : 31 < s) : nextSpan s < s := by
  unfold nextSpan
  omega

theorem fetchChunkedAux_fuel {α : Type} (api : Int → Int → Except HttpError α)
    (sd ed : Int) :
    ∀ (span f1 f2 : Nat), span ≤ f1 → span ≤ f2 →
      fetchChunkedAux api sd ed f1 span = fetchChunkedAux api sd ed f2 span := by
  intro span
  induction span using Nat.strong_induction_on with
  | _ span ih =>
    intro f1 f2 h1 h2
    rw [fetchChunkedAux, fetchChunkedAux]
    cases hA : attempt api (iter_chunks sd ed span) with
    | mk ys oe =>
      cases oe with
      | none => rfl
      | some ex =>
        by_cases hS : isSizeMsg ex.msg
        · by_cases h31 : span ≤ 31
          · simp [hS, h31]
          · have hlt := nextSpan_lt span (by omega)
            obtain ⟨f1', rfl⟩ : ∃ f1', f1 = f1' + 1 := ⟨f1 - 1, by omega⟩
            obtain ⟨f2', rfl⟩ : ∃ f2', f2 = f2' + 1 := ⟨f2 - 1, by omega⟩
            simp only [hS, h31, if_true, if_false]
            rw [ih (nextSpan span) hlt f1' f2' (by omega) (by omega)]
        · simp [hS]

/-- The single-step unfolding of `fetch_chunked`, mirroring one pass of
its `while True` / `except HttpError` loop: run one full-window chunked
attempt at the current span; on success stop; on a size-limit error
above the floor, halve the span (`nextSpan`) and restart the whole
window, keeping the responses already yielded; otherwise re-raise. -/
theorem fetch_chunked_eq {α : Type} (api : Int → Int → Except HttpError α)
    (sd ed : Int) (span : Nat) :
    fetch_chunked api sd ed span =
      match attempt api (iter_chunks sd ed span) with
      | (ys, none) => (ys, none)
      | (ys, some ex) =>
        if isSizeMsg ex.msg then
          if span ≤ 31 then (ys, some ex)
          else
            let r := fetch_chunked api sd ed (nextSpan span)
            (ys ++ r.1, r.2)
        else (ys, some ex) := by
  unfold fetch_chunked
  rw [fetchChunkedAux]
  cases hA : attempt api (iter_chunks sd ed span) with
  | mk ys oe =>
    cases oe with
    | none => rfl
    | some ex =>
      by_cases hS : isSizeMsg ex.msg
      · by_cases h31 : span ≤ 31
        · simp [hS, h31]
        · have hlt := nextSpan_lt span (by omega)
          obtain ⟨f', rfl⟩ : ∃ f', span = f' + 1 := ⟨span - 1, by omega⟩
          simp only [hS, h31, if_true, if_false]
          rw [fetchChunkedAux_fuel api sd ed (nextSpan (f' + 1)) f' (nextSpan (f' + 1))
            (by omega) (le_refl _)]
      · simp [hS]

/-- C4: the span update of `fetch_chunked` never goes below the
floor 31, is strictly decreasing whenever a halving actually happens
(span above the floor), and after `k` halvings from the configured
default 210 the span equals `max(31, 210 / 2^k)`. -/
theorem C4_span_evolution :
    (∀ s : Nat, 31 ≤ nextSpan s) ∧
    (∀ s : Nat, 31 < s → nextSpan s < s) ∧
    (∀ k : Nat, nextSpan^[k] 210 = max 31 (210 / 2 ^ k)) := by
  refine ⟨nextSpan_ge, nextSpan_lt, ?_⟩
  intro k
  induction k with
  | zero => rfl
  | succ k ih =>
    rw [Function.iterate_succ_apply', ih]
    have hdiv : 210 / 2 ^ (k + 1) = 210 / 2 ^ k / 2 := by
      rw [pow_succ, Nat.div_div_eq_div_mul]
    rw [hdiv]
    generalize 210 / 2 ^ k = n
    unfold nextSpan
    omega

/-- Witness for C4 at concrete spans: flooring, strict decrease at 210,
and the closed form after three halvings (`210 → 105 → 52 → 31`). -/
theorem C4_span_evolution_witness :
    31 ≤ nextSpan 210 ∧ (31 < 210 ∧ nextSpan 210 < 210) ∧
      nextSpan^[3] 210 = max 31 (210 / 2 ^ 3) :=
  ⟨C4_span_evolution.1 210, ⟨by decide, C4_span_evolution.2.1 210 (by decide)⟩,
    C4_span_evolution.2.2 3⟩

/-- C7: the fetch session raises exactly in two cases.  (i) An error
whose message is not recognized as a size-limit signal propagates
immediately and unchanged, with no span shrink or restart (the output
is just the responses of the current, aborted attempt).  (ii) A
size-limit error with `span <= 31` propagates unchanged with no
further shrinking.  Conversely (iii), any error the session raises
came from some attempt, and if it is a size-limit error then that
attempt ran at a span at or below the floor 31. -/
theorem C7_fetch_chunked_raises_iff :
    (∀ (α : Type) (api : Int → Int → Except HttpError α) (sd ed : Int) (span : Nat)
        (ys : List α) (ex : HttpError),
      attempt api (iter_chunks sd ed span) = (ys, some ex) →
      isSizeMsg ex.msg = false →
      fetch_chunked api sd ed span = (ys, some ex)) ∧
    (∀ (α : Type) (api : Int → Int → Except HttpError α) (sd ed : Int) (span : Nat)
        (ys : List α) (ex : HttpError),
      attempt api (iter_chunks sd ed span) = (ys, some ex) →
      isSizeMsg ex.msg = true → span ≤ 31 →
      fetch_chunked api sd ed span = (ys, some ex)) ∧
    (∀ (α : Type) (api : Int → Int → Except HttpError α) (sd ed : Int) (span : Nat)
        (out : List α) (ex : HttpError),
      fetch_chunked api sd ed span = (out, some ex) →
      ∃ sp : Nat, (attempt api (iter_chunks sd ed sp)).2 = some ex ∧
        (isSizeMsg ex.msg = true → sp ≤ 31)) := by
  refine ⟨?_, ?_, ?_⟩
  · intro α api sd ed span ys ex hA hS
    rw [fetch_chunked_eq, hA]
    simp [hS]
  · intro α api sd ed span ys ex hA hS h31
    rw [fetch_chunked_eq, hA]
    simp [hS, h31]
  · intro α api sd ed span
    induction span using Nat.strong_induction_on with
    | _ span ih =>
      intro out ex h
      rw [fetch_chunked_eq] at h
      cases hA : attempt api (iter_chunks sd ed span) with
      | mk ys oe =>
        rw [hA] at h
        cases oe with
        | none => simp at h
        | some ex' =>
          by_cases hS : isSizeMsg ex'.msg
          · by_cases h31 : span ≤ 31
            · simp only [hS, h31, if_true] at h
              have hex : ex' = ex := by
                have := congrArg Prod.snd h
                simpa using this
              subst hex
              exact ⟨span, by rw [hA], fun _ => h31⟩
            · simp only [hS, h31, if_true, if_false] at h
              have h2 : (fetch_chunked api sd ed (nextSpan span)).2 = some ex := by
                have := congrArg Prod.snd h
                simpa using this
              obtain ⟨sp, hsp1, hsp2⟩ :=
                ih (nextSpan span) (nextSpan_lt span (by omega))
                  (fetch_chunked api sd ed (nextSpan span)).1 ex
                  (by rw [← h2])
              exact ⟨sp, hsp1, hsp2⟩
          · simp only [hS, if_false] at h
            have hex : ex' = ex := by
              have := congrArg Prod.snd h
              simpa using this
            subst hex
            refine ⟨span, by rw [hA], fun hT => ?_⟩
            rw [hT] at hS
            exact absurd rfl hS

/-- Witness for C7: a non-size failure on the first request propagates
unchanged and immediately. -/
theorem C7_fetch_chunked_raises_iff_witness :
    (attempt apiQuota (iter_chunks 0 9 210) = ([], some ⟨"quota denied for project"⟩) ∧
      isSizeMsg "quota denied for project" = false) ∧
    fetch_chunked apiQuota 0 9 210 = ([], some ⟨"quota denied for project"⟩) :=
  ⟨⟨by decide, by decide⟩,
    C7_fetch_chunked_raises_iff.1 Unit apiQuota 0 9 210 [] ⟨"quota denied for project"⟩
      (by decide) (by decide)⟩

/-- C2 (failing run): fetching days 0..299 from `apiHeavy` at base
span 210 size-fails on the second chunk of the first attempt and on
the third chunk at span 105, then completes at span 52.  The response
for chunk `(0, 209)` — a successful chunk of the first, failed
attempt — has already been yielded to the caller and is not discarded:
the final yield stream contains it alongside the re-fetched chunks
`(0, 104)`, `(105, 209)`, ... covering the same days again, so the
caller's `rows` list accumulates duplicate data for days 0..209. -/
theorem C2_failed_attempt_yields_reach_caller :
    fetch_chunked apiHeavy 0 299 210 =
      ([(0, 209), (0, 104), (105, 209),
        (0, 51), (52, 103), (104, 155), (156, 207), (208, 259), (260, 299)], none) := by
  decide

/-! ## Normalization and per-entity loop -/

/-- C8: for every raw response row whose structural fields are present
and whose date and metric parse, normalization produces exactly one
normalized row (never drops it), and when the dimension value is
missing (`none`) or empty it gets the `"(unassigned)"` sentinel. -/
theorem C8_normalize_sentinel (rr : RawReportRow) (d0 d1 : DimensionValue)
    (m0 : MetricValue) (date_dt : Ymd) (sessions_val : Int)
    (h0 : rr.dimensionValues[0]? = some d0)
    (h1 : rr.dimensionValues[1]? = some d1)
    (h2 : rr.metricValues[0]? = some m0)
    (hd : d0.value.bind parseYMD8 = some date_dt)
    (hm : parseIntPy m0.value = some sessions_val) :
    normalizeRow rr = some (date_dt, pyOr d1.value "(unassigned)", sessions_val) ∧
    (d1.value = none ∨ d1.value = some "" →
      normalizeRow rr = some (date_dt, "(unassigned)", sessions_val)) := by
  have hmain : normalizeRow rr = some (date_dt, pyOr d1.value "(unassigned)", sessions_val) := by
    simp only [normalizeRow, h0, h1, h2, hd, hm]
  refine ⟨hmain, fun hdim => ?_⟩
  rw [hmain]
  rcases hdim with hdim | hdim <;> rw [hdim] <;> rfl

/-- Witness for C8: a concrete response row with an empty dimension
value normalizes to a row carrying the sentinel channel. -/
theorem C8_normalize_sentinel_witness :
    ((⟨[⟨some "20240101"⟩, ⟨some ""⟩], [⟨some "5"⟩]⟩ :
        RawReportRow).dimensionValues[0]? = some ⟨some "20240101"⟩ ∧
      (DimensionValue.mk (some "20240101")).value.bind parseYMD8 = some (2024, 1, 1) ∧
      parseIntPy (MetricValue.mk (some "5")).value = some 5) ∧
    normalizeRow ⟨[⟨some "20240101"⟩, ⟨some ""⟩], [⟨some "5"⟩]⟩ =
      some ((2024, 1, 1), "(unassigned)", 5) :=
  ⟨⟨by decide, by decide, by decide⟩,
    (C8_normalize_sentinel ⟨[⟨some "20240101"⟩, ⟨some ""⟩], [⟨some "5"⟩]⟩
      ⟨some "20240101"⟩ ⟨some ""⟩ ⟨some "5"⟩ (2024, 1, 1) 5
      (by decide) (by decide) (by decide) (by decide) (by decide)).2
      (Or.inr rfl)⟩

/-- C9: the per-entity loop is isolating — the rows and prints
contributed by the entities after any given entity are exactly what
they would be on their own, whatever happens while fetching or
normalizing that entity (every exception is caught at the entity
boundary, a missing or falsy token file is skipped with a warning
print and contributes no rows). -/
theorem C9_entity_isolation :
    (∀ (env : Env) (es1 : List EntityRow) (r : EntityRow) (es2 : List EntityRow),
      processEntities env (es1 ++ r :: es2) =
        ((processEntities env es1).1 ++ (processEntity env r).1 ++ (processEntities env es2).1,
         (processEntities env es1).2 ++ (processEntity env r).2 ++ (processEntities env es2).2)) ∧
    (∀ (env : Env) (r : EntityRow),
      r.token_file = "" ∨ env.tokenExists r.token_file = false →
      processEntity env r = ([], ["Token missing. Skip " ++ r.property_id])) := by
  constructor
  · intro env es1 r es2
    induction es1 with
    | nil => simp [processEntities]
    | cons a as ih =>
      simp only [List.cons_append, processEntities, List.append_eq]
      rw [ih]
      simp [List.append_assoc]
  · intro env r h
    unfold processEntity
    rw [if_pos h]

/-- Witness for C9: in an environment where no token file exists, an
entity is skipped with the warning print and no rows. -/
theorem C9_entity_isolation_witness :
    (entHeavy.token_file = "" ∨ envNoTok.tokenExists entHeavy.token_file = false) ∧
    processEntity envNoTok entHeavy = ([], ["Token missing. Skip 410236109"]) :=
  ⟨Or.inr rfl, C9_entity_isolation.2 envNoTok entHeavy (Or.inr rfl)⟩

/-! ## Sorting and the staged batch -/

theorem insSorted_perm (x : StageRow) (l : List StageRow) :
    (insSorted x l).Perm (x :: l) := by
  induction l with
  | nil => exact List.Perm.refl _
  | cons y ys ih =>
    unfold insSorted
    by_cases h : rowLe x y
    · rw [if_pos h]
    · rw [if_neg h]
      exact (ih.cons y).trans (List.Perm.swap x y ys)

theorem sortRows_perm (l : List StageRow) : (sortRows l).Perm l := by
  induction l with
  | nil => exact List.Perm.refl _
  | cons x xs ih =>
    exact (insSorted_perm x (sortRows xs)).trans (ih.cons x)

/-- C5 (counterexample): a run of the whole accumulation pipeline
whose staged batch contains three rows with the same composite key
`(410236109, 2024-01-01, Direct)` — the chunk covering day 0 is
fetched once in the failed 210-day attempt and again after each
halving restart, and nothing collapses or rejects the duplicates. -/
theorem C5_staged_batch_duplicate_keys :
    ¬ ((stagedBatch envDup [entHeavy]).map rowKey).Nodup ∧
    (stagedBatch envDup [entHeavy]).length = 3 := by
  constructor
  · decide
  · decide

/-- C5 (amended): the batch handed to the sink is exactly the
multiset of rows accumulated by the per-entity loop — `sort_values`
only reorders; duplicate composite keys are neither collapsed to the
last-seen value nor rejected, so they survive into the staged batch. -/
theorem C5_staged_batch_only_sorts (env : Env) (es : List EntityRow) :
    (stagedBatch env es).Perm (processEntities env es).1 := by
  unfold stagedBatch
  exact sortRows_perm _

/-! ## Merge lemmas -/

theorem tKey_mergeStep (S : List StageRow) (now : Nat) (t : TargetRow) :
    tKey (mergeStep S now t) = tKey t := by
  unfold mergeStep
  cases S.find? (fun s => decide (rowKey s = tKey t)) <;> rfl

theorem tKey_insertTarget (now : Nat) (s : StageRow) :
    tKey (insertTarget now s) = rowKey s := rfl

theorem toStage_insertTarget (now : Nat) (s : StageRow) :
    (insertTarget now s).toStage = s := rfl

theorem mergeStep_of_not_mem (S : List StageRow) (now : Nat) (t : TargetRow)
    (h : tKey t ∉ S.map rowKey) : mergeStep S now t = t := by
  unfold mergeStep
  have hf : S.find? (fun s => decide (rowKey s = tKey t)) = none := by
    apply List.find?_eq_none.mpr
    intro s hs
    simp only [decide_eq_true_eq]
    intro heq
    exact h (heq ▸ List.mem_map_of_mem rowKey hs)
  rw [hf]

theorem find?_rowKey_self (S : List StageRow) (hS : (S.map rowKey).Nodup)
    (s : StageRow) (hs : s ∈ S) :
    S.find? (fun x => decide (rowKey x = rowKey s)) = some s := by
  induction S with
  | nil => cases hs
  | cons a S' ih =>
    rw [List.map_cons, List.nodup_cons] at hS
    by_cases hak : rowKey a = rowKey s
    · have has : a = s := by
        rcases List.mem_cons.mp hs with h | h
        · exact h.symm
        · exact absurd (by rw [hak]; exact List.mem_map_of_mem rowKey h) hS.1
      rw [List.find?_cons_of_pos _ (by simp [hak]), has]
    · rw [List.find?_cons_of_neg _ (by simp [hak])]
      have hs' : s ∈ S' := by
        rcases List.mem_cons.mp hs with h | h
        · exact absurd (by rw [h]) hak
        · exact h
      exact ih hS.2 hs'

theorem merge_covers (T : List TargetRow) (S : List StageRow) (now : Nat) :
    ∀ s ∈ S, ∃ r ∈ merge T S now, tKey r = rowKey s := by
  intro s hs
  by_cases h : T.any (fun t => decide (tKey t = rowKey s)) = true
  · obtain ⟨t, ht, hkey⟩ := List.any_eq_true.mp h
    simp only [decide_eq_true_eq] at hkey
    refine ⟨mergeStep S now t, List.mem_append_left _ (List.mem_map_of_mem _ ht), ?_⟩
    rw [tKey_mergeStep, hkey]
  · refine ⟨insertTarget now s, List.mem_append_right _ ?_, rfl⟩
    apply List.mem_map_of_mem
    apply List.mem_filter.mpr
    refine ⟨hs, ?_⟩
    rw [Bool.not_eq_true] at h
    rw [h]
    rfl

theorem toStage_mergeStep_mergeStep (S : List StageRow) (n1 n2 : Nat) (t : TargetRow) :
    (mergeStep S n2 (mergeStep S n1 t)).toStage = (mergeStep S n1 t).toStage := by
  cases h : S.find? (fun s => decide (rowKey s = tKey t)) with
  | none =>
    have h1 : mergeStep S n1 t = t := by unfold mergeStep; rw [h]
    have h2 : mergeStep S n2 t = t := by unfold mergeStep; rw [h]
    rw [h1, h2]
  | some s =>
    have h1 : mergeStep S n1 t =
        { t with
          sessions := s.sessions
          property_name := s.property_name
          account_id := s.account_id
          account_name := s.account_name
          user := s.user
          token_file := s.token_file
          ingested_at := n1 } := by
      unfold mergeStep; rw [h]
    rw [h1]
    unfold mergeStep
    rw [show tKey { t with
          sessions := s.sessions
          property_name := s.property_name
          account_id := s.account_id
          account_name := s.account_name
          user := s.user
          token_file := s.token_file
          ingested_at := n1 } = tKey t from rfl, h]
    rfl

theorem toStage_mergeStep_insertTarget (S : List StageRow) (hS : (S.map rowKey).Nodup)
    (s : StageRow) (hs : s ∈ S) (n1 n2 : Nat) :
    (mergeStep S n2 (insertTarget n1 s)).toStage = s := by
  unfold mergeStep
  rw [show tKey (insertTarget n1 s) = rowKey s from rfl, find?_rowKey_self S hS s hs]
  rfl

/-- C6: the merge never deletes — restricted to composite keys absent
from the staged batch, the merged table is exactly the original target
rows, in order, with every attribute (ingestion timestamp included)
unchanged; hence every row the merge touches (updates or inserts) has
its key in the batch. -/
theorem C6_merge_never_deletes (T : List TargetRow) (S : List StageRow) (now : Nat) :
    (merge T S now).filter (fun r => !decide (tKey r ∈ S.map rowKey)) =
      T.filter (fun t => !decide (tKey t ∈ S.map rowKey)) := by
  unfold merge
  rw [List.filter_append]
  have h2 : (((S.filter (fun s => !(T.any (fun t => decide (tKey t = rowKey s))))).map
      (insertTarget now)).filter (fun r => !decide (tKey r ∈ S.map rowKey))) = [] := by
    apply List.filter_eq_nil_iff.mpr
    intro r hr
    obtain ⟨s, hsf, rfl⟩ := List.mem_map.mp hr
    have hsS : s ∈ S := (List.mem_filter.mp hsf).1
    have hmem : tKey (insertTarget now s) ∈ S.map rowKey := by
      rw [tKey_insertTarget]
      exact List.mem_map_of_mem rowKey hsS
    simp [hmem]
  rw [h2, List.append_nil]
  clear h2
  induction T with
  | nil => rfl
  | cons t T' ih =>
    simp only [List.map_cons, List.filter_cons, tKey_mergeStep]
    by_cases hk : tKey t ∈ S.map rowKey
    · rw [if_neg (by simp [hk]), if_neg (by simp [hk])]
      exact ih
    · rw [if_pos (by simp [hk]), if_pos (by simp [hk]), mergeStep_of_not_mem S now t hk]
      rw [ih]

/-- C3: the merge-upsert commit is idempotent — for any target table
and any staged batch with unique composite keys (the spec's data model
makes `(entity_id, date, dimension)` the unique identifier of a staged
row), merging the batch twice leaves the same target content as
merging it once, up to the ingestion timestamp; and the spec's
scenario: committing `(P1, 2024-01-01, Direct, 5)` and then
`(P1, 2024-01-01, Direct, 9)` leaves exactly the single target row
with metric 9. -/
theorem C3_merge_idempotent :
    (∀ (T : List TargetRow) (S : List StageRow) (n1 n2 : Nat),
      (S.map rowKey).Nodup →
      (merge (merge T S n1) S n2).map TargetRow.toStage =
        (merge T S n1).map TargetRow.toStage) ∧
    merge (merge [] [p1Direct 5] 7) [p1Direct 9] 8 = [insertTarget 8 (p1Direct 9)] := by
  constructor
  · intro T S n1 n2 hS
    have hins : S.filter
        (fun s => !((merge T S n1).any (fun t => decide (tKey t = rowKey s)))) = [] := by
      apply List.filter_eq_nil_iff.mpr
      intro s hs
      obtain ⟨r, hr, hkey⟩ := merge_covers T S n1 s hs
      have hany : (merge T S n1).any (fun t => decide (tKey t = rowKey s)) = true :=
        List.any_eq_true.mpr ⟨r, hr, by simp [hkey]⟩
      simp [hany]
    conv_lhs => rw [merge]
    rw [hins]
    simp only [List.map_nil, List.append_nil, List.map_map]
    apply List.map_congr_left
    intro r hr
    simp only [Function.comp_apply]
    rw [merge] at hr
    rcases List.mem_append.mp hr with hr1 | hr2
    · obtain ⟨t, ht, rfl⟩ := List.mem_map.mp hr1
      exact toStage_mergeStep_mergeStep S n1 n2 t
    · obtain ⟨s, hsf, rfl⟩ := List.mem_map.mp hr2
      have hsS : s ∈ S := (List.mem_filter.mp hsf).1
      rw [toStage_mergeStep_insertTarget S hS s hsS n1 n2, toStage_insertTarget]
  · decide

/-- Witness for C3: re-merging the single-row batch
`(P1, 2024-01-01, Direct, 5)` leaves the target content unchanged. -/
theorem C3_merge_idempotent_witness :
    ([p1Direct 5].map rowKey).Nodup ∧
    (merge (merge [] [p1Direct 5] 1) [p1Direct 5] 2).map TargetRow.toStage =
      (merge [] [p1Direct 5] 1).map TargetRow.toStage :=
  ⟨by decide, C3_merge_idempotent.1 [] [p1Direct 5] 1 2 (by decide)⟩
